import Mathlib

/-
Verification development for the `watcher` command-line tool
(github.com/alan-b-lima/watcher, file watcher.go).

The Go source is shallowly embedded below. Pure string and path helpers
become Lean functions on `String`/`List Char`; `time.Duration` values are
natural numbers counting nanoseconds (the unit of Go durations);
`time.Time` modification stamps are natural numbers, with `0` playing the
role of the zero `time.Time` and `Time.After` becoming `<` read from the
right. The filesystem seen by `filepath.WalkDir` is a finite tree of
named nodes carrying modification stamps, and the walk is modelled with
the documented `fs.SkipDir` semantics: returned on a directory it prunes
that subtree; returned on a non-directory it stops the remaining entries
of the containing directory. Effects of `os/exec` are modelled by the
dynamic type of the error value the calls produce, which is what the
`switch err.(type)` in `executeAndHandle` inspects.
-/

namespace Watcher

/-! ### String helpers (strings.HasSuffix, strings.HasPrefix, strings.ReplaceAll) -/

/-- Model of `strings.HasSuffix(s, suffix)`. -/
def hasSuffix (s suffix : String) : Bool :=
  suffix.data.length ≤ s.data.length &&
    s.data.drop (s.data.length - suffix.data.length) == suffix.data

/-- Model of `isFlagLike` from watcher.go: `strings.HasPrefix(arg, "-")`. -/
def isFlagLike (arg : String) : Bool :=
  match arg.data with
  | '-' :: _ => true
  | _ => false

/-- Model of `strings.ReplaceAll(path, "\\", "/")` (a character-wise map,
since the replaced pattern is a single character). -/
def slashify (s : String) : String :=
  String.mk (s.data.map (fun c => if c = '\\' then '/' else c))

/-! ### Glob matching (path/filepath.Match)

`filepath.Match` is Go standard library code, not part of this
repository; it is modelled here from its documented behaviour: `*`
matches any run of non-separator characters, `?` one non-separator
character, `[...]` a character class with optional leading `^` negation
and `lo-hi` ranges, and backslash escapes the next character (the
non-Windows behaviour; the repository feeds the name with separators
normalised to `/`). A malformed pattern (trailing backslash, unclosed or
empty class, class item missing after `-`) is `ErrBadPattern`; the
repository checks for that error during configuration normalisation via
`filepath.Match(pattern, "")` and ignores it during the walk, so the
model exposes a validity test `patValid` and a boolean matcher that is
`false` on malformed patterns. The recursions are fuelled; each step
consumes at least one character of pattern or name, so the supplied
fuel (length of the remaining input plus one) is always sufficient. -/

/-- Reads one class element: a literal or backslash-escaped character;
`]` and `-` are not acceptable here (models `getEsc`). -/
def getEsc : List Char → Option (Char × List Char)
  | [] => none
  | c :: rest =>
    if c = '-' ∨ c = ']' then none
    else if c = '\\' then
      match rest with
      | [] => none
      | d :: rest₂ => some (d, rest₂)
    else some (c, rest)

/-- Parses the body of a `[...]` class (after the optional `^`),
accumulating `lo-hi` ranges until the closing `]`; `none` on a
malformed class. -/
def parseRangesF : Nat → List (Char × Char) → List Char →
    Option (List (Char × Char) × List Char)
  | 0, _, _ => none
  | fuel + 1, acc, cs =>
    match cs with
    | [] => none
    | ']' :: rest =>
      -- a closing bracket only terminates a class that already has a
      -- range; as the first element it is malformed (getEsc rejects it)
      if acc.isEmpty then none else some (acc.reverse, rest)
    | _ =>
      match getEsc cs with
      | none => none
      | some (lo, cs₁) =>
        match cs₁ with
        | '-' :: cs₂ =>
          match getEsc cs₂ with
          | none => none
          | some (hi, cs₃) => parseRangesF fuel ((lo, hi) :: acc) cs₃
        | _ => parseRangesF fuel ((lo, lo) :: acc) cs₁

/-- Parses a whole class body including the optional leading `^`,
returning the negation flag, the ranges, and the rest of the pattern. -/
def parseClass (ps : List Char) : Option (Bool × List (Char × Char) × List Char) :=
  match ps with
  | '^' :: rest =>
    match parseRangesF (rest.length + 1) [] rest with
    | none => none
    | some (ranges, rest₂) => some (true, ranges, rest₂)
  | _ =>
    match parseRangesF (ps.length + 1) [] ps with
    | none => none
    | some (ranges, rest₂) => some (false, ranges, rest₂)

/-- Does character `c` fall in the class with the given negation flag
and ranges? -/
def inClass (neg : Bool) (ranges : List (Char × Char)) (c : Char) : Bool :=
  let hit := ranges.any (fun r => r.1.val ≤ c.val && c.val ≤ r.2.val)
  if neg then !hit else hit

/-- Fuelled matcher for a valid pattern against a name. -/
def matchGlobF : Nat → List Char → List Char → Bool
  | 0, _, _ => false
  | fuel + 1, p, s =>
    match p, s with
    | [], rest => rest.isEmpty
    | '*' :: ps, rest =>
      matchGlobF fuel ps rest ||
        (match rest with
         | [] => false
         | c :: cs => decide (c ≠ '/') && matchGlobF fuel ('*' :: ps) cs)
    | '?' :: ps, rest =>
      (match rest with
       | [] => false
       | c :: cs => decide (c ≠ '/') && matchGlobF fuel ps cs)
    | '[' :: ps, rest =>
      (match parseClass ps, rest with
       | some (neg, ranges, ps₂), c :: cs => inClass neg ranges c && matchGlobF fuel ps₂ cs
       | _, _ => false)
    | '\\' :: ps, rest =>
      (match ps, rest with
       | x :: ps₂, c :: cs => (x == c) && matchGlobF fuel ps₂ cs
       | _, _ => false)
    | c :: ps, rest =>
      (match rest with
       | [] => false
       | d :: cs => (c == d) && matchGlobF fuel ps cs)

/-- Fuelled syntactic validity of a pattern (absence of `ErrBadPattern`). -/
def patValidF : Nat → List Char → Bool
  | 0, _ => false
  | fuel + 1, p =>
    match p with
    | [] => true
    | '[' :: ps =>
      (match parseClass ps with
       | some (_, _, rest) => patValidF fuel rest
       | none => false)
    | '\\' :: ps =>
      (match ps with
       | [] => false
       | _ :: ps₂ => patValidF fuel ps₂)
    | _ :: ps => patValidF fuel ps

/-- Pattern validity: `filepath.Match(pattern, name)` reports no error. -/
def patValid (p : List Char) : Bool :=
  patValidF (p.length + 1) p

/-- Boolean reading of `filepath.Match(pattern, name)` as the repository
uses it: the match result, with `false` on a malformed pattern (the
error return is discarded in `selectiveWalk`). -/
def goMatch (pattern name : String) : Bool :=
  patValid pattern.data && matchGlobF (pattern.data.length + name.data.length + 1) pattern.data name.data

/-! ### Lexical path cleaning (path/filepath.Clean and Abs, Unix rules)

Also standard library code; modelled from the documented rules:
collapse repeated separators, drop `.` elements, resolve `..` against a
preceding element, keep leading `..` elements in relative paths, drop
them at the root, return `.` for an emptied relative path.
`filepath.Abs` cleans an already-absolute path and otherwise joins it to
the working directory, which the model takes as an explicit argument. -/

/-- Splits a character list at `/` separators. -/
def splitCompsAux (cur : List Char) : List Char → List String
  | [] => [String.mk cur.reverse]
  | c :: rest =>
    if c = '/' then String.mk cur.reverse :: splitCompsAux [] rest
    else splitCompsAux (c :: cur) rest

/-- Resolves `.` -free components against a stack, eliding `..` pairs. -/
def cleanAcc (rooted : Bool) (acc : List String) : List String → List String
  | [] => acc.reverse
  | c :: rest =>
    if c = ".." then
      match acc with
      | [] => if rooted then cleanAcc rooted [] rest else cleanAcc rooted [".."] rest
      | a :: tl =>
        if a = ".." then cleanAcc rooted (".." :: a :: tl) rest
        else cleanAcc rooted tl rest
    else cleanAcc rooted (c :: acc) rest

/-- Joins components with `/`. -/
def joinComps : List String → String
  | [] => ""
  | [c] => c
  | c :: rest => c ++ "/" ++ joinComps rest

/-- Model of `filepath.Clean` for `/`-separated paths. -/
def goClean (path : String) : String :=
  if path = "" then "."
  else
    let rooted := path.data.head? = some '/'
    let comps := (splitCompsAux [] path.data).filter (fun c => c != "" && c != ".")
    let cleaned := cleanAcc rooted [] comps
    if rooted then "/" ++ joinComps cleaned
    else if cleaned.isEmpty then "." else joinComps cleaned

/-- Model of `filepath.Abs` with the working directory passed explicitly. -/
def goAbs (cwd path : String) : String :=
  if path.data.head? = some '/' then goClean path
  else goClean (cwd ++ "/" ++ path)

/-! ### Integer parsing (strconv.ParseInt(arg, 10, 0)) -/

/-- Model of `strconv.ParseInt(s, 10, 0)`: an optional sign, then at
least one decimal digit, with the value required to fit in a 64-bit
signed integer; any violation is an error, which `processFlags` folds
into `errFailedToParseMilliseconds`. -/
def parseIntGo (s : String) : Option Int :=
  let signedDigits : Bool × List Char :=
    match s.data with
    | '+' :: rest => (false, rest)
    | '-' :: rest => (true, rest)
    | l => (false, l)
  let neg := signedDigits.1
  let digits := signedDigits.2
  if digits.isEmpty then none
  else if digits.all (fun c => c.isDigit) then
    let n : Nat := digits.foldl (fun a c => a * 10 + (c.toNat - 48)) 0
    let v : Int := if neg then -(n : Int) else (n : Int)
    if -(2 ^ 63) ≤ v ∧ v ≤ 2 ^ 63 - 1 then some v else none
  else none

/-! ### Flag processing (processFlags, normalizePaths, the granularity)

`flagState.gran` is a `time.Duration`, i.e. a count of nanoseconds. -/

/-- `Granularity = 100 * time.Millisecond`, in nanoseconds. -/
def Granularity : Nat := 100000000

/-- Largest `time.Duration` (`1<<63 - 1` nanoseconds). -/
def maxDuration : Nat := 9223372036854775807

/-- Model of `time.Duration.Round(m)` for a nonnegative duration `d`
and positive `m`: round to the nearest multiple of `m`, half away from
zero, saturating at `maxDuration` on overflow. -/
def durRound (d m : Nat) : Nat :=
  if m = 0 then d
  else
    let r := d % m
    if r + r < m then d - r
    else if d + (m - r) ≤ maxDuration then d + (m - r)
    else maxDuration

/-- The `flagWatch, flagIgnore, ...` iota constants. -/
def flagWatch : Nat := 0

def flagIgnore : Nat := 1

def flagExec : Nat := 2

def flagTickSpeed : Nat := 3

def flagAfterTickSpeed : Nat := 4

/-- The `flags` lookup map from watcher.go. -/
def flagsMap (s : String) : Option Nat :=
  if s = "-w" ∨ s = "--watch" then some flagWatch
  else if s = "-i" ∨ s = "--ignore" then some flagIgnore
  else if s = "-e" ∨ s = "--exec" then some flagExec
  else if s = "-t" ∨ s = "--tick-speed" then some flagTickSpeed
  else none

/-- The `flagState` structure from watcher.go; `gran` in nanoseconds. -/
structure FlagState where
  watch : List String := []
  ignore : List String := []
  gran : Nat := 0
  exec : List String := []
deriving DecidableEq, Repr

/-- The configuration errors of watcher.go. `badPattern` stands for the
`path.ErrBadPattern` that `normalizePaths` propagates from
`filepath.Match` on a malformed ignore pattern. -/
inductive ConfigError where
  | nothingToWatchOver
  | noExecFlag
  | unknownFlag (flag : String)
  | argAfterTickSpeedFlag
  | failedToParseMilliseconds
  | tickSpeedNonPositive
  | tickSpeedGranAlreadySet
  | badPattern
deriving DecidableEq, Repr

/-- Model of `(*flagState).normalizePaths`: watch paths become absolute
(relative to the working directory `cwd`), ignore paths are cleaned and
their glob syntax validated. -/
def normalizePaths (cwd : String) (fls : FlagState) : Except ConfigError FlagState :=
  let watch := fls.watch.map (goAbs cwd)
  let ignore := fls.ignore.map goClean
  if ignore.all (fun ig => patValid ig.data) then
    .ok { fls with watch := watch, ignore := ignore }
  else .error .badPattern

/-- The `exit:` block of `processFlags`: require a watch set, default
the granularity, normalize paths. -/
def exitStage (cwd : String) (fls : FlagState) : Except ConfigError FlagState :=
  if fls.watch.isEmpty then .error .nothingToWatchOver
  else
    let fls := if fls.gran = 0 then { fls with gran := Granularity } else fls
    normalizePaths cwd fls

/-- The argument loop of `processFlags`. At the exec flag the remaining
suffix of the argument list (Go `args[i:]`) becomes the command line and
control jumps to the exit block. -/
def processLoop (cwd : String) (fls : FlagState) (currentFlag : Nat) :
    List String → Except ConfigError FlagState
  | [] => .error .noExecFlag
  | arg :: rest =>
    match flagsMap arg with
    | some f => processLoop cwd fls f rest
    | none =>
      if isFlagLike arg then .error (.unknownFlag arg)
      else if currentFlag = flagWatch then
        processLoop cwd { fls with watch := fls.watch ++ [arg] } currentFlag rest
      else if currentFlag = flagIgnore then
        processLoop cwd { fls with ignore := fls.ignore ++ [arg] } currentFlag rest
      else if currentFlag = flagExec then
        exitStage cwd { fls with exec := arg :: rest }
      else if currentFlag = flagTickSpeed then
        match parseIntGo arg with
        | none => .error .failedToParseMilliseconds
        | some num =>
          if num ≤ 0 then .error .tickSpeedNonPositive
          else if fls.gran ≠ 0 then .error .tickSpeedGranAlreadySet
          else
            processLoop cwd { fls with gran := durRound num.toNat Granularity }
              flagAfterTickSpeed rest
      else if currentFlag = flagAfterTickSpeed then .error .argAfterTickSpeedFlag
      else processLoop cwd fls currentFlag rest

/-- Model of `processFlags(args)`, with the working directory (used by
`filepath.Abs`) passed explicitly. -/
def processFlags (cwd : String) (args : List String) : Except ConfigError FlagState :=
  processLoop cwd {} flagWatch args






/-! ### The filesystem and selectiveWalk

A filesystem entry is a named node with a modification stamp; a
directory carries its children in the order `filepath.WalkDir` yields
them. `selectiveWalk` runs `filepath.WalkDir` over every watch root and
calls the action on every entry that survives the ignore filter; the
model returns the list of `(path, modTime)` pairs the action receives,
in visit order. `fs.SkipDir` is modelled by the boolean flowing from a
node to the loop over its siblings: a matched directory just drops its
subtree, a matched non-directory additionally stops the remaining
entries of the containing directory (and at top level `WalkDir` swallows
the sentinel). -/

mutual
inductive FSNode where
  | file (name : String) (mtime : Nat)
  | dir (name : String) (mtime : Nat) (children : FSList)
inductive FSList where
  | nil
  | cons (head : FSNode) (tail : FSList)
end

/-- The entry name of a node. -/
def FSNode.name : FSNode → String
  | .file n _ => n
  | .dir n _ _ => n

/-- Is the node a directory? -/
def FSNode.isDir : FSNode → Bool
  | .file _ _ => false
  | .dir _ _ _ => true

/-- Builds an `FSList` from a `List FSNode`. -/
def FSList.ofList : List FSNode → FSList
  | [] => .nil
  | n :: l => .cons n (FSList.ofList l)

/-- One ignore entry against one path: the two tests of the walk
callback, `strings.HasSuffix(path, ig)` and
`filepath.Match(ig, strings.ReplaceAll(path, "\\", "/"))`, either of
which returns `filepath.SkipDir`. -/
def ignoreHit (ig path : String) : Bool :=
  hasSuffix path ig || goMatch ig (slashify path)

/-- The ignore filter of the walk callback: some entry of the ignore
list hits the path. -/
def excluded (ignore : List String) (path : String) : Bool :=
  ignore.any (fun ig => ignoreHit ig path)

mutual
/-- Walk of a single node at a path: the visited `(path, modTime)`
entries, and whether a `SkipDir` from a non-directory propagates to the
loop over the siblings. -/
def walkNode (ig : List String) (path : String) : FSNode → List (String × Nat) × Bool
  | .file _ m =>
    if excluded ig path then ([], true) else ([(path, m)], false)
  | .dir _ m children =>
    if excluded ig path then ([], false)
    else ((path, m) :: walkList ig path children, false)
/-- Walk of the children of the directory at `dirPath`, stopping at a
`SkipDir` raised by a non-directory child. -/
def walkList (ig : List String) (dirPath : String) : FSList → List (String × Nat)
  | .nil => []
  | .cons c cs =>
    let r := walkNode ig (dirPath ++ "/" ++ c.name) c
    if r.2 then r.1 else r.1 ++ walkList ig dirPath cs
end

/-- Model of `(*flagState).selectiveWalk`: `filepath.WalkDir` over every
watch root in order. Each root is a path paired with the tree found
there; the walk errors of the real code (failing `Stat`/`ReadDir`) are
outside this error-free filesystem model. -/
def selectiveWalk (ig : List String) : List (String × FSNode) → List (String × Nat)
  | [] => []
  | r :: rs => (walkNode ig r.1 r.2).1 ++ selectiveWalk ig rs

/-! ### findLatestChange -/

/-- The action body of `findLatestChange`: keep the running pair
`(latestModTime, filename)` unless the entry is strictly newer
(`modTime.After(latestModTime)`). -/
def scanStep (acc : Nat × String) (e : String × Nat) : Nat × String :=
  if acc.1 < e.2 then (e.2, e.1) else acc

/-- Model of `(*flagState).findLatestChange`: fold the action over the
walk, starting from the zero time and the empty filename. -/
def findLatestChange (ig : List String) (roots : List (String × FSNode)) :
    Nat × String :=
  (selectiveWalk ig roots).foldl scanStep (0, "")

/-! ### The command runner (execute, executeAndHandle)

The `switch err.(type)` in `executeAndHandle` dispatches on the dynamic
type of the error, so the model of an error is its dynamic Go type
together with its payload. Two of the types the switch names are listed
even though nothing in the program ever produces them: `errUnsupportedOS`
builds a `unsupportedOSError` *value* (not a pointer), and no code at
all wraps anything in `startProcessFailureError`. -/

/-- The dynamic type (and payload) of an error value reaching the
`switch` in `executeAndHandle`. -/
inductive GoError where
  /-- a `unsupportedOSError` value, as `errUnsupportedOS` builds it -/
  | unsupportedOSVal (os : String)
  /-- a `*unsupportedOSError` pointer; never produced by the program -/
  | unsupportedOSPtr (os : String)
  /-- a `*startProcessFailureError` pointer; never produced by the program -/
  | startFailurePtr (msg : String)
  /-- the raw error of a failing `cmd.Start` (e.g. `*fs.PathError`) -/
  | startRaw (msg : String)
  /-- a `*exec.ExitError` from `cmd.Wait` on a nonzero exit -/
  | exitErr (code : Int)
deriving DecidableEq, Repr

/-- `cmd.Start()` then `cmd.Wait()`: a failing start returns its raw
error unwrapped; a started process that exits nonzero yields a
`*exec.ExitError` from `Wait`, and a zero exit yields no error. -/
def startWait (startErr : Option String) (exitCode : Int) : Option GoError :=
  match startErr with
  | some msg => some (.startRaw msg)
  | none => if exitCode = 0 then none else some (.exitErr exitCode)

/-- Model of `(*flagState).execute`: the `switch runtime.GOOS` picks a
shell on the two supported families and otherwise returns
`errUnsupportedOS(runtime.GOOS)` — a `unsupportedOSError` value. The
environment behaviour of the spawned command is summarised by whether
`Start` fails and otherwise by the exit code. -/
def execute (goos : String) (startErr : Option String) (exitCode : Int) :
    Option GoError :=
  if goos = "windows" then startWait startErr exitCode
  else if goos = "darwin" then startWait startErr exitCode
  else if goos = "linux" then startWait startErr exitCode
  else some (.unsupportedOSVal goos)

/-- Model of `(*flagState).executeAndHandle`: the `switch err.(type)`
with cases `*unsupportedOSError`, `*startProcessFailureError` (both
returning false) and `*exec.ExitError` (reported, true); every other
error value, including `nil`, falls through all cases and the function
returns true. -/
def executeAndHandle (e : Option GoError) : Bool :=
  match e with
  | some (.unsupportedOSPtr _) => false
  | some (.startFailurePtr _) => false
  | some (.exitErr _) => true
  | _ => true

/-! ### The watch loop (main)

One `ticker.C` iteration of the `for`/`select` in `main`, as a function
of the stored baseline, the scan outcome of this tick, and the error
value `execute` produces if it is called. The events record the
externally visible operations of the iteration in program order:
`execCmd` when `executeAndHandle` is entered, `baselineUpdate` at the
assignment `currentLatestModTime = latestModTime`, `idle` for the
overwritten status line of a no-op tick, `quit` at a `return`. -/

/-- Outcome of the `findLatestChange` call of one tick. -/
inductive ScanOutcome where
  | err
  | ok (t : Nat) (filename : String)
deriving DecidableEq, Repr

/-- An observable operation of one loop iteration. -/
inductive TickEvent where
  | execCmd (filename : String)
  | baselineUpdate (t : Nat)
  | idle
  | quit
deriving DecidableEq, Repr

/-- Result of one loop iteration: its events in program order, the
baseline afterwards, and whether the loop continues. -/
structure TickResult where
  events : List TickEvent
  baseline : Nat
  cont : Bool
deriving DecidableEq, Repr

/-- One `ticker.C` iteration of `main`: a scan error returns; a scan not
strictly after the baseline prints the status line and continues; a
strictly newer scan runs `executeAndHandle(filename)` and, when that
reports success, then assigns the new baseline. -/
def tick (baseline : Nat) (scan : ScanOutcome) (execErr : Option GoError) :
    TickResult :=
  match scan with
  | .err => ⟨[.quit], baseline, false⟩
  | .ok t f =>
    if ¬ baseline < t then ⟨[.idle], baseline, true⟩
    else if executeAndHandle execErr then ⟨[.execCmd f, .baselineUpdate t], t, true⟩
    else ⟨[.execCmd f, .quit], baseline, false⟩

/-- The loop over a finite schedule of tick inputs, returning the final
stored baseline. -/
def runLoop (baseline : Nat) : List (ScanOutcome × Option GoError) → Nat
  | [] => baseline
  | (s, e) :: rest =>
    let r := tick baseline s e
    if r.cont then runLoop r.baseline rest else r.baseline

/-- Is the event a `baselineUpdate`? -/
def isUpdateEvent : TickEvent → Bool
  | .baselineUpdate _ => true
  | _ => false

/-- Is the event an `execCmd`? -/
def isExecEvent : TickEvent → Bool
  | .execCmd _ => true
  | _ => false

/-! ### Helper lemmas -/

/-- An excluded path contributes no entry: the walk of the node found
there is pruned whole, whether it is a file or a directory. -/
theorem walkNode_excluded (ig : List String) (path : String) (n : FSNode)
    (h : excluded ig path = true) : (walkNode ig path n).1 = [] := by
  cases n <;> simp [walkNode, h]

mutual
theorem walkNode_filtered (ig : List String) (path : String) (n : FSNode) :
    ∀ x ∈ (walkNode ig path n).1, excluded ig x.1 = false := by
  cases n with
  | file fname m =>
    intro x hx
    by_cases h : excluded ig path
    · simp [walkNode, h] at hx
    · simp [walkNode, h] at hx
      simp [hx, h]
  | dir dname m children =>
    intro x hx
    by_cases h : excluded ig path
    · simp [walkNode, h] at hx
    · simp [walkNode, h] at hx
      rcases hx with hx | hx
      · simp [hx, h]
      · exact walkList_filtered ig path children x hx
theorem walkList_filtered (ig : List String) (d : String) (l : FSList) :
    ∀ x ∈ walkList ig d l, excluded ig x.1 = false := by
  cases l with
  | nil => intro x hx; simp [walkList] at hx
  | cons c cs =>
    intro x hx
    simp only [walkList] at hx
    by_cases h : (walkNode ig (d ++ "/" ++ c.name) c).2
    · simp [h] at hx
      exact walkNode_filtered ig (d ++ "/" ++ c.name) c x hx
    · simp [h] at hx
      rcases hx with hx | hx
      · exact walkNode_filtered ig (d ++ "/" ++ c.name) c x hx
      · exact walkList_filtered ig d cs x hx
end

/-- Every entry a scan visits has survived the ignore filter. -/
theorem selectiveWalk_filtered (ig : List String) (roots : List (String × FSNode)) :
    ∀ x ∈ selectiveWalk ig roots, excluded ig x.1 = false := by
  induction roots with
  | nil => intro x hx; simp [selectiveWalk] at hx
  | cons r rs ih =>
    intro x hx
    simp only [selectiveWalk, List.mem_append] at hx
    rcases hx with hx | hx
    · exact walkNode_filtered ig r.1 r.2 x hx
    · exact ih x hx

/-- A walk whose every root is excluded visits nothing. -/
theorem selectiveWalk_nil_of_excluded (ig : List String)
    (roots : List (String × FSNode)) (h : ∀ r ∈ roots, excluded ig r.1 = true) :
    selectiveWalk ig roots = [] := by
  induction roots with
  | nil => rfl
  | cons r rs ih =>
    simp only [selectiveWalk]
    rw [walkNode_excluded ig r.1 r.2 (h r (by simp)),
      ih (fun q hq => h q (by simp [hq]))]
    rfl

/-- The running maximum of the scan fold stays below a strict bound on
the entries. -/
theorem foldl_scanStep_fst_lt (l : List (String × Nat)) (T : Nat) :
    ∀ acc : Nat × String, acc.1 < T → (∀ x ∈ l, x.2 < T) →
      (l.foldl scanStep acc).1 < T := by
  induction l with
  | nil => intro acc h _; simpa using h
  | cons x xs ih =>
    intro acc h hall
    simp only [List.foldl_cons]
    apply ih
    · unfold scanStep
      split
      · exact hall x (by simp)
      · exact h
    · intro y hy; exact hall y (by simp [hy])

/-- Entries no newer than the running maximum leave the scan fold
unchanged: the strictly-later test never fires. -/
theorem foldl_scanStep_noop (l : List (String × Nat)) :
    ∀ acc : Nat × String, (∀ x ∈ l, x.2 ≤ acc.1) → l.foldl scanStep acc = acc := by
  induction l with
  | nil => intro acc _; rfl
  | cons x xs ih =>
    intro acc hall
    have hx : x.2 ≤ acc.1 := hall x (by simp)
    have hstep : scanStep acc x = acc := by
      unfold scanStep; rw [if_neg (by omega)]
    simp only [List.foldl_cons, hstep]
    exact ih acc (fun y hy => hall y (by simp [hy]))

/-- The scan action replaces the running pair on a strictly newer
entry. -/
theorem scanStep_newer (acc : Nat × String) (e : String × Nat)
    (h : acc.1 < e.2) : scanStep acc e = (e.2, e.1) := by
  unfold scanStep
  rw [if_pos h]

/-- The scan action keeps the running pair on an entry that is not
strictly newer — in particular on an equal timestamp. -/
theorem scanStep_keep (acc : Nat × String) (e : String × Nat)
    (h : e.2 ≤ acc.1) : scanStep acc e = acc := by
  unfold scanStep
  rw [if_neg (by omega)]

/-- One iteration never lowers the stored baseline. -/
theorem tick_baseline_le (b : Nat) (s : ScanOutcome) (e : Option GoError) :
    b ≤ (tick b s e).baseline := by
  cases s with
  | err => simp [tick]
  | ok t f =>
    by_cases h : b < t
    · by_cases he : executeAndHandle e = true
      · simp [tick, h, he]
        omega
      · simp [tick, h, he]
    · simp [tick, h]

/-- `startWait` never produces a `*startProcessFailureError`: the error
of a failing `cmd.Start` is returned without being wrapped. -/
theorem startWait_no_wrap (s : Option String) (c : Int) (m : String) :
    startWait s c ≠ some (.startFailurePtr m) := by
  cases s with
  | none =>
    simp only [startWait]
    split <;> simp
  | some msg => simp [startWait]

/-- No run of `execute` ever produces a `*startProcessFailureError`:
the case for it in `executeAndHandle` is dead code. -/
theorem execute_no_wrap (goos : String) (s : Option String) (c : Int) (m : String) :
    execute goos s c ≠ some (.startFailurePtr m) := by
  unfold execute
  split
  · exact startWait_no_wrap s c m
  · split
    · exact startWait_no_wrap s c m
    · split
      · exact startWait_no_wrap s c m
      · simp

/-! ### The claims -/

/-- Claim C1, evaluated at the failing input. The claim says an
unsupported platform is fatal: `executeAndHandle` returns false and the
loop terminates. On the code, `errUnsupportedOS` builds a
`unsupportedOSError` *value*, the `switch err.(type)` case names the
pointer type `*unsupportedOSError`, so no case matches, and on GOOS
`plan9` the handler returns true and the iteration continues the loop. -/
theorem claim_unsupported_os_not_fatal :
    execute "plan9" none 0 = some (.unsupportedOSVal "plan9") ∧
    executeAndHandle (execute "plan9" none 0) = true ∧
    (tick 0 (.ok 5 "main.go") (execute "plan9" none 0)).cont = true := by
  refine ⟨by decide, by decide, by decide⟩

/-- Claim C2, evaluated at the failing input. The claim says a failing
`cmd.Start` is fatal (`executeAndHandle` returns false, loop ends) in
contrast to a nonzero exit, which keeps the loop running. On the code
the start error is returned unwrapped, `startProcessFailureError` is
never constructed anywhere (last conjunct), so the handler returns true
for a start failure just as it does for a nonzero exit, and the loop
continues in both cases. -/
theorem claim_start_failure_not_fatal :
    execute "linux" (some "fork/exec /bin/sh: no such file or directory") 0 =
      some (.startRaw "fork/exec /bin/sh: no such file or directory") ∧
    executeAndHandle
      (execute "linux" (some "fork/exec /bin/sh: no such file or directory") 0) = true ∧
    (tick 0 (.ok 5 "main.go")
      (execute "linux" (some "fork/exec /bin/sh: no such file or directory") 0)).cont
      = true ∧
    executeAndHandle (execute "linux" none 2) = true ∧
    (∀ (goos : String) (s : Option String) (c : Int) (m : String),
      execute goos s c ≠ some (.startFailurePtr m)) :=
  ⟨by decide, by decide, by decide, by decide, fun goos s c m => execute_no_wrap goos s c m⟩

/-- Claim C3, evaluated at the failing input. The claim says the value
after the tick-speed flag is a count of milliseconds. The code stores
`time.Duration(num).Round(Granularity)`: `num` is read as nanoseconds
and rounded to the nearest multiple of 100ms, so `-t 1000` yields 0,
which the exit block then replaces with the default 100000000ns = 100ms
granularity rather than the 1000ms = 1000000000ns the claim requires. -/
theorem claim_tick_speed_not_milliseconds :
    processFlags "/" ["/f", "-t", "1000", "-e", "c"] =
      .ok { watch := ["/f"], ignore := [], gran := 100000000, exec := ["c"] } ∧
    (100000000 : Nat) ≠ 1000 * 1000000 :=
  ⟨rfl, by decide⟩

/-- Claim C4, counterexample. A configuration watching a single empty
directory does not return the zero timestamp and empty path:
`filepath.WalkDir` visits the root directory itself and the scan action
records its modification time, so the scan reports the directory. -/
theorem claim_empty_dir_scan_cex :
    findLatestChange [] [("/w", FSNode.dir "w" 5 FSList.nil)] = (5, "/w") ∧
    ((5, "/w") : Nat × String) ≠ ((0, "") : Nat × String) :=
  ⟨rfl, by decide⟩

/-- Claim C4, amended: a scan whose walk visits zero entries — for
example because every watch root itself matches an ignore entry —
returns the zero timestamp and the empty path (and the walk raises no
error). An empty directory root is not such a case: the directory is
itself a visited entry and its own modification time is reported. -/
theorem claim_scan_no_entries_zero (ig : List String)
    (roots : List (String × FSNode)) (h : ∀ r ∈ roots, excluded ig r.1 = true) :
    findLatestChange ig roots = (0, "") := by
  unfold findLatestChange
  rw [selectiveWalk_nil_of_excluded ig roots h]
  rfl

/-- Witness for the amended claim C4: with ignore entry `w` and single
watch root `/w`, the root is excluded, the walk visits nothing and the
scan returns the zero timestamp and the empty path. -/
theorem claim_scan_no_entries_zero_witness :
    (∀ r ∈ ([("/w", FSNode.dir "w" 5 FSList.nil)] : List (String × FSNode)),
      excluded ["w"] r.1 = true) ∧
    findLatestChange ["w"] [("/w", FSNode.dir "w" 5 FSList.nil)] = (0, "") :=
  ⟨by decide, claim_scan_no_entries_zero ["w"] [("/w", FSNode.dir "w" 5 FSList.nil)]
    (by decide)⟩

/-- Claim C5, counterexample. The claim says the baseline update
precedes the command invocation inside an iteration that found a newer
timestamp. In the code the assignment `currentLatestModTime =
latestModTime` is the line after the `executeAndHandle` call, so in the
event order of such an iteration the execution comes first: at baseline
0 and a scan result (5, "f") the events are `[execCmd, baselineUpdate]`
and the first update event is not before the first execution event. -/
theorem claim_baseline_update_order_cex :
    (tick 0 (.ok 5 "f") none).events = [.execCmd "f", .baselineUpdate 5] ∧
    ¬ ((tick 0 (.ok 5 "f") none).events.findIdx isUpdateEvent <
        (tick 0 (.ok 5 "f") none).events.findIdx isExecEvent) := by
  refine ⟨by decide, by decide⟩

/-- Claim C5, amended: in every iteration whose poll finds a timestamp
strictly after the baseline and whose command invocation is not fatal,
the baseline is updated to the new timestamp immediately *after* the
command invocation returns, within the same iteration — so a
modification during command execution is still only detected on the
next tick, neither lost nor double-counted. -/
theorem claim_baseline_update_after_exec (b t : Nat) (f : String)
    (e : Option GoError) (h : b < t) (hok : executeAndHandle e = true) :
    tick b (.ok t f) e = ⟨[.execCmd f, .baselineUpdate t], t, true⟩ := by
  simp [tick, h, hok]

/-- Witness for the amended claim C5 at baseline 0, scan result
(5, "f"), and a command run with no error. -/
theorem claim_baseline_update_after_exec_witness :
    0 < 5 ∧ executeAndHandle none = true ∧
    tick 0 (.ok 5 "f") none = ⟨[.execCmd "f", .baselineUpdate 5], 5, true⟩ :=
  ⟨by decide, by decide, claim_baseline_update_after_exec 0 5 "f" none (by decide) (by decide)⟩

/-- Claim C6, evaluated at the failing input. The claim says a second
valid positive tick-speed value always fails with the already-set
error. The already-set test compares `fls.gran` with 0 *after* the
first value has been rounded to the granularity, and `-t 7` rounds
(7 nanoseconds) to 0, so `-t 7 -t 7` is accepted and the default
granularity used. Only a value whose rounded duration is nonzero, such
as 100000000, makes the second occurrence fail as the claim states. -/
theorem claim_tick_speed_twice_accepted :
    processFlags "/" ["/f", "-t", "7", "-t", "7", "-e", "c"] =
      .ok { watch := ["/f"], ignore := [], gran := 100000000, exec := ["c"] } ∧
    processFlags "/" ["/f", "-t", "100000000", "-t", "100000000", "-e", "c"] =
      .error .tickSpeedGranAlreadySet :=
  ⟨rfl, rfl⟩

/-- Claim C7: the stored baseline is monotonically non-decreasing
across the lifetime of the loop — one iteration either keeps it or
replaces it by a strictly greater value, and over any finite schedule
of iterations the final baseline is at least the initial one. -/
theorem claim_baseline_monotone (b : Nat) (s : ScanOutcome) (e : Option GoError)
    (l : List (ScanOutcome × Option GoError)) :
    ((tick b s e).baseline = b ∨ b < (tick b s e).baseline) ∧ b ≤ runLoop b l := by
  constructor
  · have := tick_baseline_le b s e
    omega
  · induction l generalizing b with
    | nil => simp [runLoop]
    | cons p rest ih =>
      obtain ⟨ps, pe⟩ := p
      simp only [runLoop]
      split
      · exact le_trans (tick_baseline_le b ps pe) (ih _)
      · exact tick_baseline_le b ps pe

/-- Claim C8: ties keep the earliest-encountered path. If the walk
visits `e₁` and later `e₂` with equal modification times, every other
visited entry being strictly older, then the scan reports `e₁`: the
running maximum is replaced only on a strictly-later time, never on an
equal one, so the result is determined by traversal order. -/
theorem claim_scan_tie_keeps_first (ig : List String)
    (roots : List (String × FSNode)) (pre mid post : List (String × Nat))
    (e₁ e₂ : String × Nat)
    (hw : selectiveWalk ig roots = pre ++ e₁ :: (mid ++ e₂ :: post))
    (heq : e₂.2 = e₁.2) (hpos : 0 < e₁.2)
    (hmax : ∀ x ∈ pre ++ (mid ++ post), x.2 < e₁.2) :
    findLatestChange ig roots = (e₁.2, e₁.1) := by
  unfold findLatestChange
  rw [hw, List.foldl_append, List.foldl_cons, List.foldl_append, List.foldl_cons]
  have hA : (pre.foldl scanStep (0, "")).1 < e₁.2 :=
    foldl_scanStep_fst_lt pre e₁.2 (0, "") hpos
      (fun x hx => hmax x (by simp [hx]))
  rw [scanStep_newer (pre.foldl scanStep (0, "")) e₁ hA]
  have h2 : mid.foldl scanStep (e₁.2, e₁.1) = (e₁.2, e₁.1) :=
    foldl_scanStep_noop mid (e₁.2, e₁.1)
      (fun x hx => le_of_lt (hmax x (by simp [hx])))
  rw [h2]
  rw [scanStep_keep (e₁.2, e₁.1) e₂ (by omega)]
  exact foldl_scanStep_noop post (e₁.2, e₁.1)
    (fun x hx => le_of_lt (hmax x (by simp [hx])))

/-- Witness for claim C8: two files `a` and `b` under `/w` share the
modification time 7, newer than the directory; the scan reports the
first of them in traversal order, `/w/a`. -/
theorem claim_scan_tie_keeps_first_witness :
    selectiveWalk []
        [("/w", FSNode.dir "w" 1 (FSList.ofList [FSNode.file "a" 7, FSNode.file "b" 7]))]
      = [("/w", 1)] ++ ("/w/a", 7) :: ([] ++ ("/w/b", 7) :: []) ∧
    (("/w/b", 7) : String × Nat).2 = (("/w/a", 7) : String × Nat).2 ∧
    0 < (("/w/a", 7) : String × Nat).2 ∧
    (∀ x ∈ ([("/w", 1)] : List (String × Nat)) ++ ([] ++ []), x.2 < 7) ∧
    findLatestChange []
        [("/w", FSNode.dir "w" 1 (FSList.ofList [FSNode.file "a" 7, FSNode.file "b" 7]))]
      = (7, "/w/a") :=
  ⟨rfl, rfl, by decide, by decide,
    claim_scan_tie_keeps_first []
      [("/w", FSNode.dir "w" 1 (FSList.ofList [FSNode.file "a" 7, FSNode.file "b" 7]))]
      [("/w", 1)] [] [] ("/w/a", 7) ("/w/b", 7) rfl rfl (by decide) (by decide)⟩

/-- Claim C9: a path hit by an ignore entry never contributes to a scan
result (no visited entry of any walk is hit by any entry of the ignore
list), and the subtree rooted at a hit path contributes nothing at all
— for a directory the walk does not descend into it. -/
theorem claim_ignored_path_never_scanned (ig : List String) (E : String)
    (hE : E ∈ ig) (roots : List (String × FSNode)) (path : String) (n : FSNode)
    (hhit : ignoreHit E path = true) :
    (selectiveWalk ig roots).all (fun x => !(ignoreHit E x.1)) = true ∧
    (walkNode ig path n).1 = [] := by
  constructor
  · rw [List.all_eq_true]
    intro x hx
    have hf : excluded ig x.1 = false := selectiveWalk_filtered ig roots x hx
    cases hih : ignoreHit E x.1 with
    | false => simp [hih]
    | true =>
      exfalso
      have hex : excluded ig x.1 = true := by
        unfold excluded
        rw [List.any_eq_true]
        exact ⟨E, hE, hih⟩
      rw [hf] at hex
      exact Bool.false_ne_true hex
  · apply walkNode_excluded
    unfold excluded
    rw [List.any_eq_true]
    exact ⟨E, hE, hhit⟩

/-- Witness for claim C9: ignoring `.git`, a tree with a `.git`
directory containing a newer file. No visited entry is hit by the
ignore entry, and the walk of the `.git` subtree is empty. -/
theorem claim_ignored_path_never_scanned_witness :
    (".git" ∈ ([".git"] : List String)) ∧
    ignoreHit ".git" "/w/.git" = true ∧
    ((selectiveWalk [".git"]
        [("/w", FSNode.dir "w" 1
          (FSList.ofList [FSNode.dir ".git" 3 (FSList.ofList [FSNode.file "HEAD" 9]),
            FSNode.file "a" 2]))]).all (fun x => !(ignoreHit ".git" x.1)) = true ∧
      (walkNode [".git"] "/w/.git"
        (FSNode.dir ".git" 3 (FSList.ofList [FSNode.file "HEAD" 9]))).1 = []) :=
  ⟨by decide, by decide,
    claim_ignored_path_never_scanned [".git"] ".git" (by decide)
      [("/w", FSNode.dir "w" 1
        (FSList.ofList [FSNode.dir ".git" 3 (FSList.ofList [FSNode.file "HEAD" 9]),
          FSNode.file "a" 2]))]
      "/w/.git" (FSNode.dir ".git" 3 (FSList.ofList [FSNode.file "HEAD" 9]))
      (by decide)⟩

/-- Claim C10: when an ignore rule hits a non-directory file, the
`filepath.SkipDir` the callback returns stops the walk of the remaining
entries of the containing directory — the children after the file are
irrelevant to the walk, and the file together with everything after it
in its directory contributes nothing. -/
theorem claim_ignored_file_skips_siblings (ig : List String) (d : String)
    (l₁ l₂ : List FSNode) (fname : String) (m : Nat)
    (hhit : excluded ig (d ++ "/" ++ fname) = true) :
    walkList ig d (FSList.ofList (l₁ ++ FSNode.file fname m :: l₂)) =
      walkList ig d (FSList.ofList (l₁ ++ [FSNode.file fname m])) ∧
    walkList ig d (FSList.ofList (FSNode.file fname m :: l₂)) = [] := by
  have hstop : ∀ l : List FSNode,
      walkList ig d (FSList.ofList (FSNode.file fname m :: l)) = [] := by
    intro l
    simp [FSList.ofList, walkList, walkNode, FSNode.name, hhit]
  refine ⟨?_, hstop l₂⟩
  induction l₁ with
  | nil =>
    simp only [List.nil_append]
    rw [hstop l₂, hstop []]
  | cons c cs ih =>
    simp only [List.cons_append, FSList.ofList, walkList, List.append_eq]
    rw [ih]

/-- Witness for claim C10: ignoring `skip.txt`, the directory `/w`
lists `a`, then `skip.txt`, then `z`; the walk output is the same as if
`z` were absent, and the tail of the listing starting at `skip.txt`
contributes nothing. -/
theorem claim_ignored_file_skips_siblings_witness :
    excluded ["skip.txt"] ("/w" ++ "/" ++ "skip.txt") = true ∧
    (walkList ["skip.txt"] "/w"
        (FSList.ofList ([FSNode.file "a" 3] ++ FSNode.file "skip.txt" 4 ::
          [FSNode.file "z" 9])) =
      walkList ["skip.txt"] "/w"
        (FSList.ofList ([FSNode.file "a" 3] ++ [FSNode.file "skip.txt" 4])) ∧
    walkList ["skip.txt"] "/w"
        (FSList.ofList (FSNode.file "skip.txt" 4 :: [FSNode.file "z" 9])) = []) :=
  ⟨by decide,
    claim_ignored_file_skips_siblings ["skip.txt"] "/w"
      [FSNode.file "a" 3] [FSNode.file "z" 9] "skip.txt" 4 (by decide)⟩

end Watcher
